import Mathlib

/-!
Shallow embedding of the virtual-filesystem layer of the repository
(`src/pkg/vfs/file.go`).  Metadata documents, the byte-level content
store and the staged write-then-commit protocol (`CreateFile`,
`File.Write`, `File.Close`), metadata patching (`ModifyFileMetadata`),
trash (`TrashFile`) and permanent destruction (`DestroyFile`) are
translated into executable Lean definitions.  External collaborators
that are not part of the repository (the couchdb metadata store, the
afero content store, the Go standard library path functions) are
modelled by their documented semantics; helpers of the repository whose
source is not available (`checkFileName`, `tryOrUseSuffix`,
`normalizeDocPatch`, the `consts` package, directory resolution) are
modelled from the specification and marked as such.
-/

set_option autoImplicit false

namespace Vfs

/-- Error taxonomy of the vfs layer.  `notFound` stands for any error
recognized by `os.IsNotExist`, `alreadyExists` for `os.ErrExist`,
`invalidOperation` for `os.ErrInvalid`; the remaining constructors
mirror the named `Err...` values of the package, and `other` stands for
an arbitrary error bubbled up from an external store. -/
inductive Err where
  | notFound
  | alreadyExists
  | conflict
  | fileInTrash
  | invalidName
  | nonAbsolutePath
  | invalidHash
  | contentLengthMismatch
  | invalidOperation
  | other (msg : String)
deriving DecidableEq

/-- Which couchdb call the staged writer performed at commit time. -/
inductive CommitOp where
  | create
  | update
deriving DecidableEq

/-! ### Association-list stores

Both external stores (path-indexed content store, id-indexed metadata
store) are modelled as association lists with first-match lookup. -/

/-- First-match lookup in an association list. -/
def lookupA {α : Type} (k : String) : List (String × α) → Option α
  | [] => none
  | (k2, v) :: rest => if k2 = k then some v else lookupA k rest

/-- Remove every binding of a key. -/
def eraseA {α : Type} (k : String) : List (String × α) → List (String × α)
  | [] => []
  | e :: rest => if e.1 = k then eraseA k rest else e :: eraseA k rest

/-- Overwrite the binding of a key. -/
def insertA {α : Type} (k : String) (v : α) (l : List (String × α)) : List (String × α) :=
  (k, v) :: eraseA k l

/-! ### Go standard-library path functions

`path.Clean`, `path.IsAbs`, `path.Join` and `path.Dir` are external to
the repository; they are reimplemented here following their documented
lexical semantics, structurally on character lists so that they compute
by kernel reduction. -/

/-- Split a character list on the slash separator. -/
def splitSlashAux : List Char → List Char → List (List Char)
  | acc, [] => [acc.reverse]
  | acc, c :: rest =>
    if c = '/' then acc.reverse :: splitSlashAux [] rest
    else splitSlashAux (c :: acc) rest

/-- One step of the lexical cleaning loop of `path.Clean`: process one
path element against the stack of kept elements (stored reversed). -/
def cleanStep (rooted : Bool) (out : List (List Char)) (part : List Char) :
    List (List Char) :=
  if part = [] ∨ part = ['.'] then out
  else if part = ['.', '.'] then
    if rooted then out.tail
    else
      match out with
      | [] => [['.', '.']]
      | p :: rest => if p = ['.', '.'] then ['.', '.'] :: p :: rest else rest
  else part :: out

/-- Join path elements with slashes. -/
def joinComps : List (List Char) → List Char
  | [] => []
  | [c] => c
  | c :: c2 :: rest => c ++ '/' :: joinComps (c2 :: rest)

/-- Go `path.Clean`: lexically normalize a slash-separated path. -/
def pathClean (p : String) : String :=
  let cs := p.data
  let rooted := match cs with
    | '/' :: _ => true
    | _ => false
  let comps := ((splitSlashAux [] cs).foldl (cleanStep rooted) []).reverse
  if rooted then String.mk ('/' :: joinComps comps)
  else if comps = [] then "."
  else String.mk (joinComps comps)

/-- Go `path.IsAbs`: a path is absolute when it starts with a slash. -/
def pathIsAbs (p : String) : Bool :=
  match p.data with
  | '/' :: _ => true
  | _ => false

/-- Go `path.Join` restricted to two elements: join with a slash and
clean, skipping a leading empty element. -/
def pathJoin (a b : String) : String :=
  if a = "" then (if b = "" then "" else pathClean b)
  else pathClean (a ++ "/" ++ b)

/-- Drop the last path component, keeping the trailing slash. -/
def dropLastComp (cs : List Char) : List Char :=
  (cs.reverse.dropWhile (fun c => c ≠ '/')).reverse

/-- Go `path.Dir`: everything up to the final slash, cleaned. -/
def pathDir (p : String) : String :=
  pathClean (String.mk (dropLastComp p.data))

/-- Go `strings.HasPrefix`. -/
def strStartsWith (s pre : String) : Bool :=
  pre.data.isPrefixOf s.data

/-! ### Reserved identifiers -/

/-- Modelled from the spec: the reserved root-directory id of the
`consts` package, whose source is not under src/ (a named constant,
distinct from the trash id). -/
def RootDirID : String := "io.cozy.files.root-dir"

/-- Modelled from the spec: the reserved trash-directory id of the
`consts` package, whose source is not under src/. -/
def TrashDirID : String := "io.cozy.files.trash-dir"

/-- Modelled from the spec: the `type` value of file documents
(`consts.FileType`), whose source is not under src/. -/
def FileType : String := "file"

/-- Modelled from the spec: the path of the reserved trash root
(`TrashDirName`), whose source is not under src/. -/
def TrashDirName : String := "/.cozy_trash"

/-! ### File documents -/

/-- `FileDoc`: the metadata document of a file node
(`src/pkg/vfs/file.go`).  Byte strings are `List Nat`, timestamps are
`Nat`, the `int64` size is `Int` (its sign is significant), and the
nilable `MD5Sum` slice is an `Option`. -/
structure FileDoc where
  type : String
  docID : String
  docRev : String
  name : String
  dirID : String
  restorePath : String
  createdAt : Nat
  updatedAt : Nat
  size : Int
  md5Sum : Option (List Nat)
  mime : String
  fclass : String
  executable : Bool
  tags : List String
  referencedBy : List (String × String)
deriving DecidableEq

/-- `DirDoc`: the directory metadata document (its source is a
companion file not under src/; only the fields used by path resolution
are modelled). -/
structure DirDoc where
  docID : String
  docRev : String
  name : String
  dirID : String
deriving DecidableEq

/-- The content store: a map from absolute logical path to content
bytes (afero filesystem, external collaborator). -/
abbrev Fs : Type := List (String × List Nat)

/-- The whole mutable world of one vfs context: the content store, the
directory documents, the file documents, and the current clock used to
stamp update times. -/
structure Ctx where
  fs : Fs
  dirs : List (String × DirDoc)
  docs : List (String × FileDoc)
  now : Nat
deriving DecidableEq

/-! ### Content-store primitives -/

/-- Stat-then-read of the content store: `none` means `os.IsNotExist`. -/
def fsLookup (p : String) (fs : Fs) : Option (List Nat) :=
  lookupA p fs

/-- Content-store `Rename`, failing with not-found when the source is
absent and overwriting the destination otherwise (os semantics). -/
def fsRenameE (oldp newp : String) (fs : Fs) : Except Err Fs :=
  match lookupA oldp fs with
  | none => .error Err.notFound
  | some v => .ok (insertA newp v (eraseA oldp fs))

/-- Content-store `Rename` with the error discarded, as in the deferred
cleanup of `File.Close`: a failed rename leaves the store unchanged. -/
def fsRenameIgnore (oldp newp : String) (fs : Fs) : Fs :=
  match lookupA oldp fs with
  | none => fs
  | some v => insertA newp v (eraseA oldp fs)

/-- Content-store `Remove`, failing with not-found when the path is
absent. -/
def fsRemoveE (p : String) (fs : Fs) : Except Err Fs :=
  match lookupA p fs with
  | none => .error Err.notFound
  | some _ => .ok (eraseA p fs)

/-- Content-store `Chmod`; permission bits themselves are not tracked,
only the possible not-found failure. -/
def fsChmod (p : String) (fs : Fs) : Except Err Fs :=
  match lookupA p fs with
  | none => .error Err.notFound
  | some _ => .ok fs

/-- `safeCreateFile` (src/pkg/vfs/file.go): open write-only with
`O_CREATE|O_EXCL`, so creation fails when the path already exists; the
mode derives from the executable flag (modes are not tracked). -/
def safeCreateFile (name : String) (executable : Bool) (fs : Fs) : Except Err Fs :=
  match lookupA name fs with
  | some _ => .error Err.alreadyExists
  | none =>
    let _ := executable
    .ok (insertA name [] fs)

/-- `safeRenameFile` (src/pkg/vfs/file.go): clean both paths, require
them absolute, fail with `os.ErrExist` when the destination is
occupied, and delegate to the content store's rename otherwise. -/
def safeRenameFile (fs : Fs) (oldpath0 newpath0 : String) : Except Err Fs :=
  let newpath := pathClean newpath0
  let oldpath := pathClean oldpath0
  if !(pathIsAbs newpath) || !(pathIsAbs oldpath) then .error Err.nonAbsolutePath
  else
    match fsLookup newpath fs with
    | some _ => .error Err.alreadyExists
    | none => fsRenameE oldpath newpath fs

/-! ### Metadata-store primitives -/

/-- Modelled from the spec: the metadata store's `update` (couchdb is
not under src/) fails on a revision mismatch with a `Conflict` error
and otherwise stores the document under a fresh revision. -/
def couchUpdateDoc (c : Ctx) (doc : FileDoc) : Except Err Ctx :=
  match lookupA doc.docID c.docs with
  | none => .error Err.notFound
  | some cur =>
    if cur.docRev ≠ doc.docRev then .error Err.conflict
    else .ok { c with docs := insertA doc.docID { doc with docRev := doc.docRev ++ "+" } c.docs }

/-- Modelled from the spec: the metadata store's `delete` (couchdb is
not under src/) removes the document, failing when it is absent. -/
def couchDeleteDoc (c : Ctx) (doc : FileDoc) : Except Err Ctx :=
  match lookupA doc.docID c.docs with
  | none => .error Err.notFound
  | some _ => .ok { c with docs := eraseA doc.docID c.docs }

/-! ### Constructor and validation -/

/-- Modelled from the spec: `checkFileName` is not under src/; a file
name is validated against a disallowed-character set — empty names and
names containing the path separator are invalid. -/
def checkFileName (name : String) : Option Err :=
  if name = "" ∨ name.data.contains '/' then some Err.invalidName else none

/-- Modelled from the spec: `uniqueTags` is not under src/; tags are a
set of strings, deduplicated. -/
def uniqueTags : List String → List String
  | [] => []
  | t :: rest =>
    let r := uniqueTags rest
    if r.contains t then r else t :: r

/-- `NewFileDoc` (src/pkg/vfs/file.go): the validating constructor; an
empty parent id is replaced by the reserved root-directory id, tags are
deduplicated, and both timestamps start at the creation date. -/
def NewFileDoc (name dirID : String) (size : Int) (md5Sum : Option (List Nat))
    (mime fclass : String) (cdate : Nat) (executable : Bool) (tags : List String) :
    Except Err FileDoc :=
  match checkFileName name with
  | some e => .error e
  | none =>
    let dirID := if dirID = "" then RootDirID else dirID
    .ok { type := FileType, docID := "", docRev := "", name := name, dirID := dirID,
          restorePath := "", createdAt := cdate, updatedAt := cdate, size := size,
          md5Sum := md5Sum, mime := mime, fclass := fclass, executable := executable,
          tags := uniqueTags tags, referencedBy := [] }

/-! ### Path resolution -/

/-- Modelled from the spec: `getParentDir` is not under src/; the
parent directory is fetched from the metadata store by id, the root id
resolving to the reserved root directory. -/
def getParentDir (c : Ctx) (dirID : String) : Except Err DirDoc :=
  if dirID = RootDirID then .ok { docID := RootDirID, docRev := "", name := "", dirID := "" }
  else
    match lookupA dirID c.dirs with
    | some d => .ok d
    | none => .error Err.notFound

/-- Modelled from the spec: directory path resolution (the directory
document logic is not under src/) walks parent references up to the
root, joining names; the recursion is depth-bounded by fuel, exhaustion
standing for the unbounded recursion a corrupted tree would cause. -/
def dirPath (c : Ctx) : Nat → DirDoc → Except Err String
  | 0, _ => .error Err.notFound
  | fuel + 1, d =>
    if d.dirID = RootDirID then .ok (pathJoin "/" d.name)
    else
      match lookupA d.dirID c.dirs with
      | none => .error Err.notFound
      | some p =>
        match dirPath c fuel p with
        | .error e => .error e
        | .ok pp => .ok (pathJoin pp d.name)

/-- Depth bound for directory path resolution. -/
def maxDepth : Nat := 256

/-- `FileDoc.Path` (src/pkg/vfs/file.go): a file whose parent is the
root has path `/<name>`; otherwise the parent directory's path is
resolved and joined with the name. -/
def filePath (c : Ctx) (f : FileDoc) : Except Err String :=
  if f.dirID = RootDirID then .ok (pathJoin "/" f.name)
  else
    match getParentDir c f.dirID with
    | .error e => .error e
    | .ok parent =>
      match dirPath c maxDepth parent with
      | .error e => .error e
      | .ok pp => .ok (pathJoin pp f.name)

/-! ### The staged writer -/

/-- `fileCreation` (src/pkg/vfs/file.go): the state of a file opened
for writing.  The running md5 hash is modelled by the accumulated
bytes (`hashData`); the digest function is supplied at close time. -/
structure FileCreation where
  w : Int
  newdoc : FileDoc
  olddoc : Option FileDoc
  newpath : String
  bakpath : String
  checkHash : Bool
  hashData : List Nat
  err : Option Err
deriving DecidableEq

/-- Outcomes of the external calls performed by `File.Close`: the
result of closing the underlying content-store handle, and the result
of the couchdb commit call in case it is reached. -/
structure CloseEnv where
  closeErr : Option Err
  commitErr : Option Err
deriving DecidableEq

/-- Everything observable about one `File.Close` call: the returned
error, the final in-memory document, which couchdb call was performed
(`none` when the commit was never attempted), and the content store
after the deferred cleanup. -/
structure CloseOutcome where
  err : Option Err
  doc : FileDoc
  commit : Option CommitOp
  fs : Fs
deriving DecidableEq

/-- `bytes.Equal` between the nilable declared digest and a computed
digest: a nil slice equals only the empty slice. -/
def bytesEqOpt : Option (List Nat) → List Nat → Bool
  | none, b => b.isEmpty
  | some a, b => a == b

/-- `File.Write` (src/pkg/vfs/file.go) on a write-mode handle, given
the count and error reported by the underlying content-store handle:
an underlying error is latched in the creation state; otherwise the
written total grows and the bytes feed the running digest. -/
def fileWrite (n : Nat) (werr : Option Err) (p : List Nat) (fc : FileCreation) :
    (Nat × Option Err) × FileCreation :=
  match werr with
  | some e => ((n, some e), { fc with err := some e })
  | none => ((n, none), { fc with w := fc.w + Int.ofNat n, hashData := fc.hashData ++ p })

/-- The document after the two substitutions of `File.Close`: a
negative declared size becomes the measured byte count, a missing
declared digest becomes the computed digest. -/
def docAfterChecks (md5f : List Nat → List Nat) (fc : FileCreation) : FileDoc :=
  let nd := if fc.newdoc.size < 0 then { fc.newdoc with size := fc.w } else fc.newdoc
  if nd.md5Sum.isNone then { nd with md5Sum := some (md5f fc.hashData) } else nd

/-- The main body of `File.Close` (src/pkg/vfs/file.go), before the
deferred cleanup: close the underlying handle, check the declared
digest, substitute a negative declared size, fill a missing digest,
check the size, and commit (update when an old document was given,
create otherwise). -/
def fileCloseMain (md5f : List Nat → List Nat) (env : CloseEnv) (fc : FileCreation) :
    Option Err × FileDoc × Option CommitOp :=
  match env.closeErr with
  | some e => (some e, fc.newdoc, none)
  | none =>
    if fc.checkHash && !(bytesEqOpt fc.newdoc.md5Sum (md5f fc.hashData)) then
      (some Err.invalidHash, fc.newdoc, none)
    else
      let nd := docAfterChecks md5f fc
      if nd.size ≠ fc.w then (some Err.contentLengthMismatch, nd, none)
      else
        match fc.olddoc with
        | some _ => (env.commitErr, nd, some CommitOp.update)
        | none => (env.commitErr, nd, some CommitOp.create)

/-- Which commit call `File.Close` performs: update with revision check
when replacing, create otherwise. -/
def commitOpOf : Option FileDoc → CommitOp
  | some _ => CommitOp.update
  | none => CommitOp.create

/-- `File.Close` (src/pkg/vfs/file.go) on a write-mode handle: the main
body followed by the deferred cleanup, which reads the final error and
the latched write error — with a backup, rename it back on any error
and remove it on success; without one, remove the target on any
error. -/
def fileClose (md5f : List Nat → List Nat) (env : CloseEnv) (fc : FileCreation)
    (fs : Fs) : CloseOutcome :=
  let m := fileCloseMain md5f env fc
  let anyErr := m.1.isSome || fc.err.isSome
  let fs' :=
    match fc.olddoc with
    | some _ =>
      if anyErr then fsRenameIgnore fc.bakpath fc.newpath fs
      else eraseA fc.bakpath fs
    | none => if anyErr then eraseA fc.newpath fs else fs
  { err := m.1, doc := m.2.1, commit := m.2.2, fs := fs' }

/-- Digest validation passes when no digest was declared or the
declared digest equals the computed one. -/
def hashOk (md5f : List Nat → List Nat) (fc : FileCreation) : Bool :=
  !(fc.checkHash && !(bytesEqOpt fc.newdoc.md5Sum (md5f fc.hashData)))

/-- Size validation passes when the declared size is negative (unset)
or equals the measured byte count. -/
def sizeOk (fc : FileCreation) : Bool :=
  decide (fc.newdoc.size < 0) || fc.newdoc.size == fc.w

/-- `CreateFile` (src/pkg/vfs/file.go): resolve the target path; when
replacing, rename the existing content to the backup path
`/.{oldID}_{oldRevision}` (a not-found there is a lost race and maps to
`Conflict`) and carry the old id, revision and creation time into the
new document while stamping a fresh update time; then open the target
exclusively and build the creation state. -/
def createFile (c : Ctx) (newdoc0 : FileDoc) (olddoc : Option FileDoc) :
    Except Err (FileCreation × Ctx) :=
  match filePath c newdoc0 with
  | .error e => .error e
  | .ok newpath =>
    let step2 : Except Err (String × Fs) :=
      match olddoc with
      | none => .ok ("", c.fs)
      | some od =>
        let bak := "/." ++ od.docID ++ "_" ++ od.docRev
        match safeRenameFile c.fs newpath bak with
        | .error e => .error (if e = Err.notFound then Err.conflict else e)
        | .ok fs' => .ok (bak, fs')
    match step2 with
    | .error e => .error e
    | .ok (bakpath, fs1) =>
      let newdoc :=
        match olddoc with
        | some od =>
          { newdoc0 with
            docID := od.docID
            docRev := od.docRev
            createdAt := od.createdAt
            updatedAt := c.now }
        | none => newdoc0
      match safeCreateFile newpath newdoc.executable fs1 with
      | .error e => .error e
      | .ok fs2 =>
        .ok ({ w := 0, newdoc := newdoc, olddoc := olddoc, newpath := newpath,
               bakpath := bakpath, checkHash := newdoc.md5Sum.isSome,
               hashData := [], err := none },
             { c with fs := fs2 })

/-! ### Metadata patching -/

/-- `DocPatch`: a partial update, each field optional (`nil` pointer =
keep the current value).  Its source file is not under src/; the fields
are the ones `ModifyFileMetadata` dereferences. -/
structure DocPatch where
  name : Option String
  dirID : Option String
  restorePath : Option String
  tags : Option (List String)
  updatedAt : Option Nat
  executable : Option Bool
deriving DecidableEq

/-- A fully-defaulted patch, as produced by normalization. -/
structure NormPatch where
  name : String
  dirID : String
  restorePath : String
  tags : List String
  updatedAt : Nat
  executable : Bool
deriving DecidableEq

/-- The defaults `ModifyFileMetadata` builds from the current document
before normalizing the caller's patch. -/
def patchDefaults (olddoc : FileDoc) : NormPatch :=
  { name := olddoc.name, dirID := olddoc.dirID, restorePath := olddoc.restorePath,
    tags := olddoc.tags, updatedAt := olddoc.updatedAt, executable := olddoc.executable }

/-- Modelled from the spec: `normalizeDocPatch` is not under src/;
every unset patch field is filled from the current document's value
(the defaulting happens before any validation). -/
def normalizeDocPatch (defaults : NormPatch) (patch : DocPatch) (cdate : Nat) :
    Except Err NormPatch :=
  let _ := cdate
  .ok { name := patch.name.getD defaults.name,
        dirID := patch.dirID.getD defaults.dirID,
        restorePath := patch.restorePath.getD defaults.restorePath,
        tags := patch.tags.getD defaults.tags,
        updatedAt := patch.updatedAt.getD defaults.updatedAt,
        executable := patch.executable.getD defaults.executable }

/-- `ModifyFileMetadata` (src/pkg/vfs/file.go): normalize the patch,
rebuild the document through the validating constructor, carry forward
restore path, identity and revision, stamp the patched update time,
resolve the new parent when the parent changed, rename the content when
the path changed, chmod when the executable bit changed, and commit
with revision check.  Errors abort the remaining steps but keep the
content-store effects already performed. -/
def ModifyFileMetadata (c : Ctx) (olddoc : FileDoc) (patch0 : DocPatch) :
    Except Err FileDoc × Ctx :=
  let cdate := olddoc.createdAt
  match normalizeDocPatch (patchDefaults olddoc) patch0 cdate with
  | .error e => (.error e, c)
  | .ok patch =>
    match NewFileDoc patch.name patch.dirID olddoc.size olddoc.md5Sum olddoc.mime
        olddoc.fclass cdate patch.executable patch.tags with
    | .error e => (.error e, c)
    | .ok nd0 =>
      let nd1 := { nd0 with restorePath := patch.restorePath }
      match (if nd1.dirID ≠ olddoc.dirID then (getParentDir c nd1.dirID).map (fun _ => ())
             else .ok ()) with
      | .error e => (.error e, c)
      | .ok _ =>
        let nd :=
          { nd1 with
            docID := olddoc.docID
            docRev := olddoc.docRev
            updatedAt := patch.updatedAt }
        match filePath c olddoc with
        | .error e => (.error e, c)
        | .ok oldpath =>
          match filePath c nd with
          | .error e => (.error e, c)
          | .ok newpath =>
            match (if newpath ≠ oldpath then safeRenameFile c.fs oldpath newpath
                   else .ok c.fs) with
            | .error e => (.error e, c)
            | .ok fs1 =>
              match (if nd.executable ≠ olddoc.executable then fsChmod newpath fs1
                     else .ok fs1) with
              | .error e => (.error e, { c with fs := fs1 })
              | .ok fs2 =>
                match couchUpdateDoc { c with fs := fs2 } nd with
                | .error e => (.error e, { c with fs := fs2 })
                | .ok c2 => (.ok nd, c2)

/-! ### The conflict namer and the trash manager -/

/-- Modelled from the spec: the decorated-suffix pattern
(`conflictFormat`, not under src/) applied to a base name and a retry
counter. -/
def conflictName (base : String) (i : Nat) : String :=
  base ++ " (" ++ Nat.repr i ++ ")"

/-- Modelled from the spec: bound on the conflict namer's retries. -/
def maxTries : Nat := 100

/-- A result fails specifically due to a naming collision when it is
the already-exists error. -/
def isCollision {α : Type} : Except Err α → Bool
  | .error Err.alreadyExists => true
  | _ => false

/-- Modelled from the spec: the retry loop of `tryOrUseSuffix` (not
under src/), threading the context through the attempts: try the
candidate name, and on a naming-collision error retry with a decorated
name, until success, a non-collision failure, or exhaustion. -/
def tryGo {α : Type} (fmt : String → Nat → String)
    (op : String → Ctx → Except Err α × Ctx) (base : String) :
    Nat → Nat → Ctx → Except Err α × Ctx
  | 0, _, c => (.error Err.alreadyExists, c)
  | fuel + 1, i, c =>
    let name := if i = 0 then base else fmt base i
    let r := op name c
    if isCollision r.1 then tryGo fmt op base fuel (i + 1) r.2
    else r

/-- Modelled from the spec: `tryOrUseSuffix` (not under src/). -/
def tryOrUseSuffix {α : Type} (base : String) (fmt : String → Nat → String)
    (op : String → Ctx → Except Err α × Ctx) (c : Ctx) : Except Err α × Ctx :=
  tryGo fmt op base maxTries 0 c

/-- `TrashFile` (src/pkg/vfs/file.go): refuse with the in-trash error
when the resolved path already lies under the trash root; otherwise
record the parent of the current path as restore path and move the
document under the trash directory via the conflict namer and the
metadata mutator. -/
def TrashFile (c : Ctx) (olddoc : FileDoc) : Except Err FileDoc × Ctx :=
  match filePath c olddoc with
  | .error e => (.error e, c)
  | .ok oldpath =>
    if strStartsWith oldpath TrashDirName then (.error Err.fileInTrash, c)
    else
      let restorePath := pathDir oldpath
      tryOrUseSuffix olddoc.name conflictName
        (fun name c2 => ModifyFileMetadata c2 olddoc
          { name := some name, dirID := some TrashDirID, restorePath := some restorePath,
            tags := none, updatedAt := none, executable := none }) c

/-- `DestroyFile` (src/pkg/vfs/file.go): resolve the path, remove the
content, and only then delete the metadata document; any earlier
failure is returned with the metadata store untouched. -/
def DestroyFile (c : Ctx) (doc : FileDoc) : Option Err × Ctx :=
  match filePath c doc with
  | .error e => (some e, c)
  | .ok p =>
    match fsRemoveE p c.fs with
    | .error e => (some e, c)
    | .ok fs' =>
      match couchDeleteDoc { c with fs := fs' } doc with
      | .error e => (some e, { c with fs := fs' })
      | .ok c2 => (none, c2)

/-! ### Concrete instances used by witnesses and counterexamples -/

/-- A sample file document under the root directory. -/
def ndW : FileDoc :=
  { type := FileType, docID := "", docRev := "", name := "a.txt", dirID := RootDirID,
    restorePath := "", createdAt := 5, updatedAt := 5, size := 3, md5Sum := none,
    mime := "text/plain", fclass := "text", executable := false, tags := [],
    referencedBy := [] }

/-- A stored revision of the sample document. -/
def odW : FileDoc := { ndW with docID := "f1", docRev := "1-x", createdAt := 2, updatedAt := 3 }

/-- The trash directory document. -/
def trashDirW : DirDoc :=
  { docID := TrashDirID, docRev := "t", name := ".cozy_trash", dirID := RootDirID }

/-- A sample context: one file at `/a.txt`, the trash directory, and the
stored metadata document. -/
def cW : Ctx :=
  { fs := [("/a.txt", [7])], dirs := [(TrashDirID, trashDirW)], docs := [("f1", odW)],
    now := 42 }

/-- A sample digest function for witnesses (the development is
parametric in the digest). -/
def md5W : List Nat → List Nat := fun b => b

/-- A creation state with a correctly declared digest and size. -/
def fcOkW : FileCreation :=
  { w := 3, newdoc := { ndW with md5Sum := some [1, 2, 3] }, olddoc := none,
    newpath := "/a.txt", bakpath := "", checkHash := true, hashData := [1, 2, 3],
    err := none }

/-- A creation state whose written bytes do not match the declared
digest. -/
def fcBadHashW : FileCreation := { fcOkW with hashData := [9] }

/-- A fresh creation state with no declared digest and an unset size. -/
def fcUnsetW : FileCreation :=
  { w := 0, newdoc := { ndW with size := -1 }, olddoc := none, newpath := "/a.txt",
    bakpath := "", checkHash := false, hashData := [], err := none }

/-- The creation state after one `File.Write` whose underlying write
failed: the error is latched. -/
def fcLatchedW : FileCreation := (fileWrite 3 (some (Err.other "io")) [1, 2, 3] fcUnsetW).2

/-- A replace-mode creation state with passing validations. -/
def fcReplW : FileCreation :=
  { fcOkW with olddoc := some odW, bakpath := "/.f1_1-x" }

/-- The creation state produced by `createFile cW ndW (some odW)`. -/
def fcReplResW : FileCreation :=
  { w := 0,
    newdoc := { ndW with docID := "f1", docRev := "1-x", createdAt := 2, updatedAt := 42 },
    olddoc := some odW,
    newpath := "/a.txt",
    bakpath := "/.f1_1-x",
    checkHash := false,
    hashData := [],
    err := none }

/-- The context produced by `createFile cW ndW (some odW)`. -/
def cReplResW : Ctx :=
  { cW with fs := [("/a.txt", []), ("/.f1_1-x", [7])] }

/-- The document produced by trashing `odW` in `cW`. -/
def trashedW : FileDoc := { odW with dirID := TrashDirID, restorePath := "/" }

end Vfs

namespace Vfs

/-! ### Association-list lemmas -/

theorem lookupA_eraseA_self {α : Type} (k : String) (l : List (String × α)) :
    lookupA k (eraseA k l) = none := by
  induction l with
  | nil => rfl
  | cons e rest ih =>
    by_cases h : e.1 = k
    · simp [eraseA, h, ih]
    · simp [eraseA, lookupA, h, ih]

theorem lookupA_eraseA_ne {α : Type} (k k2 : String) (l : List (String × α)) (h : k2 ≠ k) :
    lookupA k (eraseA k2 l) = lookupA k l := by
  induction l with
  | nil => rfl
  | cons e rest ih =>
    by_cases he : e.1 = k2
    · have hek : e.1 ≠ k := fun hk => h (he ▸ hk)
      simp [eraseA, lookupA, he, hek, ih, h]
    · simp [eraseA, lookupA, he, ih]

theorem lookupA_insertA_self {α : Type} (k : String) (v : α) (l : List (String × α)) :
    lookupA k (insertA k v l) = some v := by
  simp [insertA, lookupA]

theorem lookupA_insertA_ne {α : Type} (k k2 : String) (v : α) (l : List (String × α))
    (h : k2 ≠ k) : lookupA k (insertA k2 v l) = lookupA k l := by
  simp only [insertA, lookupA, if_neg h]
  exact lookupA_eraseA_ne k k2 l h

/-! ### Characterization of the staged writer's close -/

theorem docAfterChecks_size (md5f : List Nat → List Nat) (fc : FileCreation) :
    (docAfterChecks md5f fc).size = if fc.newdoc.size < 0 then fc.w else fc.newdoc.size := by
  unfold docAfterChecks
  by_cases h : fc.newdoc.size < 0 <;> simp [h] <;> split <;> rfl

theorem fileCloseMain_closed (md5f : List Nat → List Nat) (env : CloseEnv)
    (fc : FileCreation) (h : env.closeErr = none) :
    fileCloseMain md5f env fc =
      if hashOk md5f fc = false then (some Err.invalidHash, fc.newdoc, none)
      else if sizeOk fc = false then
        (some Err.contentLengthMismatch, docAfterChecks md5f fc, none)
      else (env.commitErr, docAfterChecks md5f fc, some (commitOpOf fc.olddoc)) := by
  obtain ⟨ce, cm⟩ := env
  dsimp at h
  subst h
  have hsz := docAfterChecks_size md5f fc
  by_cases hb : (fc.checkHash && !(bytesEqOpt fc.newdoc.md5Sum (md5f fc.hashData))) = true
  · simp [fileCloseMain, hb, hashOk]
  · have hb' : (fc.checkHash && !(bytesEqOpt fc.newdoc.md5Sum (md5f fc.hashData))) = false :=
      Bool.eq_false_iff.mpr hb
    by_cases hlt : fc.newdoc.size < 0
    · have : (docAfterChecks md5f fc).size = fc.w := by rw [hsz, if_pos hlt]
      cases ho : fc.olddoc <;>
        simp [fileCloseMain, hb', hashOk, sizeOk, hlt, this, commitOpOf, ho]
    · have hds : (docAfterChecks md5f fc).size = fc.newdoc.size := by rw [hsz, if_neg hlt]
      by_cases hw : fc.newdoc.size = fc.w
      · cases ho : fc.olddoc <;>
          simp [fileCloseMain, hb', hashOk, sizeOk, hlt, hds, hw, commitOpOf, ho]
      · simp [fileCloseMain, hb', hashOk, sizeOk, hlt, hds, hw, commitOpOf]

theorem fileClose_err (md5f : List Nat → List Nat) (env : CloseEnv) (fc : FileCreation)
    (fs : Fs) : (fileClose md5f env fc fs).err = (fileCloseMain md5f env fc).1 := rfl

theorem fileClose_doc (md5f : List Nat → List Nat) (env : CloseEnv) (fc : FileCreation)
    (fs : Fs) : (fileClose md5f env fc fs).doc = (fileCloseMain md5f env fc).2.1 := rfl

theorem fileClose_commit (md5f : List Nat → List Nat) (env : CloseEnv) (fc : FileCreation)
    (fs : Fs) : (fileClose md5f env fc fs).commit = (fileCloseMain md5f env fc).2.2 := rfl

theorem hashOk_of_declared (md5f : List Nat → List Nat) (fc : FileCreation) (m : List Nat)
    (hch : fc.checkHash = true) (hmd : fc.newdoc.md5Sum = some m) :
    hashOk md5f fc = true ↔ m = md5f fc.hashData := by
  simp [hashOk, hch, hmd, bytesEqOpt]

/-- C1: after a successful underlying close, `File.Close` returns
`InvalidHash` exactly when a declared digest differs from the computed
one; a negative declared size is replaced by the measured count;
otherwise `ContentLengthMismatch` is returned exactly when the declared
size differs from the measured count; and the metadata document is
committed (update when an old document was given, create otherwise)
exactly when all validations pass.  The commit oracle is assumed not to
produce the two validation errors itself. -/
theorem close_validation_commit (md5f : List Nat → List Nat) (env : CloseEnv)
    (fc : FileCreation) (fs : Fs)
    (hclose : env.closeErr = none)
    (hc1 : env.commitErr ≠ some Err.invalidHash)
    (hc2 : env.commitErr ≠ some Err.contentLengthMismatch) :
    (∀ m, fc.checkHash = true → fc.newdoc.md5Sum = some m →
      ((fileClose md5f env fc fs).err = some Err.invalidHash ↔ m ≠ md5f fc.hashData))
    ∧ (hashOk md5f fc = true → fc.newdoc.size < 0 →
        (fileClose md5f env fc fs).doc.size = fc.w
        ∧ (fileClose md5f env fc fs).err ≠ some Err.contentLengthMismatch)
    ∧ (hashOk md5f fc = true → 0 ≤ fc.newdoc.size →
        ((fileClose md5f env fc fs).err = some Err.contentLengthMismatch ↔
          fc.newdoc.size ≠ fc.w))
    ∧ ((fileClose md5f env fc fs).commit =
        if hashOk md5f fc && sizeOk fc then some (commitOpOf fc.olddoc) else none) := by
  have hm := fileCloseMain_closed md5f env fc hclose
  rw [fileClose_err md5f env fc fs, fileClose_doc md5f env fc fs,
    fileClose_commit md5f env fc fs, hm]
  by_cases hh : hashOk md5f fc = true
  · by_cases hs : sizeOk fc = true
    · refine ⟨?_, ?_, ?_, ?_⟩
      · intro m hch hmd
        have hEq : m = md5f fc.hashData := (hashOk_of_declared md5f fc m hch hmd).mp hh
        simp [hh, hs, hc1, hEq]
      · intro _ hlt
        simp [hh, hs, hc2, docAfterChecks_size, hlt]
      · intro _ hge
        have hlt : ¬ fc.newdoc.size < 0 := not_lt.mpr hge
        have : fc.newdoc.size = fc.w := by
          have := hs
          simp [sizeOk, hlt] at this
          exact this
        simp [hh, hs, hc2, this]
      · simp [hh, hs]
    · have hs' : sizeOk fc = false := Bool.eq_false_iff.mpr hs
      refine ⟨?_, ?_, ?_, ?_⟩
      · intro m hch hmd
        have hEq : m = md5f fc.hashData := (hashOk_of_declared md5f fc m hch hmd).mp hh
        simp [hh, hs', hEq]
      · intro _ hlt
        exfalso
        apply hs
        simp [sizeOk, hlt]
      · intro _ hge
        have hlt : ¬ fc.newdoc.size < 0 := not_lt.mpr hge
        have hne : fc.newdoc.size ≠ fc.w := by
          intro hEq
          apply hs
          simp [sizeOk, hEq]
        simp [hh, hs', hne]
      · simp [hh, hs']
  · have hh' : hashOk md5f fc = false := Bool.eq_false_iff.mpr hh
    refine ⟨?_, ?_, ?_, ?_⟩
    · intro m hch hmd
      have hne : m ≠ md5f fc.hashData := fun hEq =>
        hh ((hashOk_of_declared md5f fc m hch hmd).mpr hEq)
      simp [hh', hne]
    · intro hcon
      exact absurd hcon hh
    · intro hcon
      exact absurd hcon hh
    · simp [hh']

/-- Witness for C1: a staged write with a correctly declared digest and
size commits with a create. -/
theorem close_validation_commit_witness :
    ((⟨none, none⟩ : CloseEnv).closeErr = none)
    ∧ (fileClose md5W ⟨none, none⟩ fcOkW [("/a.txt", [])]).commit = some CommitOp.create := by
  refine ⟨rfl, ?_⟩
  have h := (close_validation_commit md5W ⟨none, none⟩ fcOkW [("/a.txt", [])] rfl
    (by decide) (by decide)).2.2.2
  rw [h]
  decide

/-- C2: the deferred cleanup of `File.Close`: with a backup, the backup
is renamed back to the target exactly on an error (returned or
latched) and removed otherwise; without a backup, the target is
removed exactly on an error — so a failed pure creation leaves no
content at the target path. -/
theorem close_cleanup (md5f : List Nat → List Nat) (env : CloseEnv) (fc : FileCreation)
    (fs : Fs) :
    (∀ od, fc.olddoc = some od →
      (fileClose md5f env fc fs).fs =
        (if ((fileClose md5f env fc fs).err.isSome || fc.err.isSome) = true
         then fsRenameIgnore fc.bakpath fc.newpath fs
         else eraseA fc.bakpath fs))
    ∧ (fc.olddoc = none →
        (((fileClose md5f env fc fs).err.isSome || fc.err.isSome) = true →
          (fileClose md5f env fc fs).fs = eraseA fc.newpath fs
          ∧ fsLookup fc.newpath (fileClose md5f env fc fs).fs = none)
        ∧ (((fileClose md5f env fc fs).err.isSome || fc.err.isSome) = false →
          (fileClose md5f env fc fs).fs = fs)) := by
  constructor
  · intro od ho
    simp only [fileClose, ho]
  · intro ho
    constructor
    · intro h
      simp only [fileClose, ho] at h ⊢
      have hfs : (if ((fileCloseMain md5f env fc).1.isSome || fc.err.isSome) = true
          then eraseA fc.newpath fs else fs) = eraseA fc.newpath fs := by
        rw [if_pos h]
      refine ⟨hfs, ?_⟩
      rw [hfs]
      exact lookupA_eraseA_self fc.newpath fs
    · intro h
      simp only [fileClose, ho] at h ⊢
      rw [if_neg]
      simp [h]

/-- Witness for C2: a creation whose declared digest does not match
leaves no content at the target path. -/
theorem close_cleanup_witness :
    fcBadHashW.olddoc = none
    ∧ fsLookup fcBadHashW.newpath
        (fileClose md5W ⟨none, none⟩ fcBadHashW [("/a.txt", [])]).fs = none := by
  refine ⟨rfl, ?_⟩
  exact (((close_cleanup md5W ⟨none, none⟩ fcBadHashW [("/a.txt", [])]).2 rfl).1
    (by decide)).2

/-- C3 (evaluation of the code at the failing input): after one
`File.Write` whose underlying write failed, the error is latched, yet
`File.Close` returns no error and still performs the metadata create —
while its own cleanup removes the content at the target path. -/
theorem write_error_not_surfaced :
    fcLatchedW.err = some (Err.other "io")
    ∧ (fileClose md5W ⟨none, none⟩ fcLatchedW [("/a.txt", [])]).err = none
    ∧ (fileClose md5W ⟨none, none⟩ fcLatchedW [("/a.txt", [])]).commit = some CommitOp.create
    ∧ fsLookup "/a.txt" (fileClose md5W ⟨none, none⟩ fcLatchedW [("/a.txt", [])]).fs = none :=
  ⟨rfl, rfl, rfl, rfl⟩

/-- Counterexample to C4 as stated: when the final commit fails on a
pure creation, the new content does NOT remain at the target path —
the deferred cleanup removes it. -/
theorem commit_failure_remains_counterexample :
    (fileClose md5W ⟨none, some (Err.other "db")⟩ fcOkW [("/a.txt", [1, 2, 3])]).err
        = some (Err.other "db")
    ∧ fsLookup "/a.txt"
        (fileClose md5W ⟨none, some (Err.other "db")⟩ fcOkW [("/a.txt", [1, 2, 3])]).fs
        = none :=
  ⟨rfl, rfl⟩

/-- C4 (amended): when the underlying close and all validations succeed
but the metadata commit fails, `File.Close` returns the commit error,
and the deferred cleanup IS applied: a pure creation's target is
removed, a replacement's backup is renamed back over the target. -/
theorem commit_failure_cleanup (md5f : List Nat → List Nat) (env : CloseEnv)
    (fc : FileCreation) (fs : Fs) (e : Err)
    (hclose : env.closeErr = none) (hcommit : env.commitErr = some e)
    (_hwerr : fc.err = none) (hhash : hashOk md5f fc = true) (hsize : sizeOk fc = true) :
    (fileClose md5f env fc fs).err = some e
    ∧ (fileClose md5f env fc fs).commit = some (commitOpOf fc.olddoc)
    ∧ (fc.olddoc = none →
        (fileClose md5f env fc fs).fs = eraseA fc.newpath fs
        ∧ fsLookup fc.newpath (fileClose md5f env fc fs).fs = none)
    ∧ (∀ od, fc.olddoc = some od →
        (fileClose md5f env fc fs).fs = fsRenameIgnore fc.bakpath fc.newpath fs) := by
  have hm := fileCloseMain_closed md5f env fc hclose
  rw [hhash, hsize, hcommit] at hm
  simp only [Bool.true_eq_false, if_false] at hm
  have herr : (fileClose md5f env fc fs).err = some e := by
    rw [fileClose_err md5f env fc fs, hm]
  refine ⟨herr, ?_, ?_, ?_⟩
  · rw [fileClose_commit md5f env fc fs, hm]
  · intro ho
    have hfs : (fileClose md5f env fc fs).fs = eraseA fc.newpath fs := by
      simp [fileClose, ho, hm]
    refine ⟨hfs, ?_⟩
    rw [hfs]
    exact lookupA_eraseA_self fc.newpath fs
  · intro od ho
    simp [fileClose, ho, hm]

/-- Witness for the amended C4: a concrete pure creation whose commit
fails returns the database error and leaves no content at the target
path. -/
theorem commit_failure_cleanup_witness :
    ((⟨none, some (Err.other "db")⟩ : CloseEnv).commitErr = some (Err.other "db"))
    ∧ fsLookup fcOkW.newpath
        (fileClose md5W ⟨none, some (Err.other "db")⟩ fcOkW [("/b.txt", [9])]).fs = none := by
  refine ⟨rfl, ?_⟩
  exact ((commit_failure_cleanup md5W ⟨none, some (Err.other "db")⟩ fcOkW
    [("/b.txt", [9])] (Err.other "db") rfl rfl rfl (by decide) (by decide)).2.2.1 rfl).2

/-! ### Inversion of `CreateFile` -/

theorem safeRenameFile_ok_inv (fs fs1 : Fs) (oldp newp : String)
    (h : safeRenameFile fs oldp newp = Except.ok fs1) :
    ∃ v, lookupA (pathClean oldp) fs = some v
      ∧ lookupA (pathClean newp) fs = none
      ∧ fs1 = insertA (pathClean newp) v (eraseA (pathClean oldp) fs) := by
  unfold safeRenameFile at h
  dsimp only at h
  split at h
  · simp at h
  · rename_i hab
    cases hn : fsLookup (pathClean newp) fs with
    | some v => rw [hn] at h; simp at h
    | none =>
      rw [hn] at h
      unfold fsRenameE at h
      cases ho : lookupA (pathClean oldp) fs with
      | none => rw [ho] at h; simp at h
      | some v =>
        rw [ho] at h
        simp only [Except.ok.injEq] at h
        exact ⟨v, rfl, hn, h.symm⟩

theorem createFile_ok_inv (c : Ctx) (nd od : FileDoc) (newpath : String)
    (fc : FileCreation) (c2 : Ctx)
    (hpath : filePath c nd = Except.ok newpath)
    (h : createFile c nd (some od) = Except.ok (fc, c2)) :
    ∃ fs1,
      safeRenameFile c.fs newpath ("/." ++ od.docID ++ "_" ++ od.docRev) = Except.ok fs1
      ∧ lookupA newpath fs1 = none
      ∧ fc = { w := 0,
               newdoc := { nd with
                           docID := od.docID
                           docRev := od.docRev
                           createdAt := od.createdAt
                           updatedAt := c.now },
               olddoc := some od,
               newpath := newpath,
               bakpath := "/." ++ od.docID ++ "_" ++ od.docRev,
               checkHash := nd.md5Sum.isSome,
               hashData := [],
               err := none }
      ∧ c2 = { c with fs := insertA newpath [] fs1 } := by
  unfold createFile at h
  rw [hpath] at h
  dsimp only at h
  cases hsr : safeRenameFile c.fs newpath ("/." ++ od.docID ++ "_" ++ od.docRev) with
  | error e =>
    rw [hsr] at h
    dsimp only at h
    split at h <;> simp at h
  | ok fs1 =>
    rw [hsr] at h
    dsimp only at h
    unfold safeCreateFile at h
    cases hcr : lookupA newpath fs1 with
    | some v =>
      rw [hcr] at h
      simp at h
    | none =>
      rw [hcr] at h
      dsimp only at h
      simp only [Except.ok.injEq, Prod.mk.injEq] at h
      exact ⟨fs1, rfl, hcr, h.1.symm, h.2.symm⟩

/-- C5: replace-mode `CreateFile` renames the existing content at the
resolved target path to the backup path `/.{oldID}_{oldRevision}`
before the target is opened (on success the old content sits at the
backup path and the target holds a freshly created empty entry), and a
backup rename failing because the source path does not exist surfaces
as a `Conflict` error. -/
theorem create_file_replace (c : Ctx) (nd od : FileDoc) (newpath : String)
    (hpath : filePath c nd = Except.ok newpath) :
    (pathIsAbs (pathClean newpath) = true →
     pathIsAbs (pathClean ("/." ++ od.docID ++ "_" ++ od.docRev)) = true →
     fsLookup (pathClean ("/." ++ od.docID ++ "_" ++ od.docRev)) c.fs = none →
     fsLookup (pathClean newpath) c.fs = none →
     createFile c nd (some od) = Except.error Err.conflict)
    ∧ (∀ fc c2, createFile c nd (some od) = Except.ok (fc, c2) →
        fc.bakpath = "/." ++ od.docID ++ "_" ++ od.docRev
        ∧ fc.newpath = newpath
        ∧ fsLookup newpath c2.fs = some []
        ∧ (pathClean ("/." ++ od.docID ++ "_" ++ od.docRev) ≠ newpath →
           fsLookup (pathClean ("/." ++ od.docID ++ "_" ++ od.docRev)) c2.fs
             = fsLookup (pathClean newpath) c.fs)) := by
  constructor
  · intro ha1 ha2 hb hn
    have hsr : safeRenameFile c.fs newpath ("/." ++ od.docID ++ "_" ++ od.docRev)
        = Except.error Err.notFound := by
      unfold safeRenameFile fsRenameE
      simp [ha1, ha2, fsLookup] at hb hn ⊢
      simp [hb, hn]
    unfold createFile
    rw [hpath]
    dsimp only
    rw [hsr]
    simp
  · intro fc c2 h
    obtain ⟨fs1, hsr, hcr, hfc, hc2⟩ := createFile_ok_inv c nd od newpath fc c2 hpath h
    obtain ⟨v, hov, hnv, hfs1⟩ := safeRenameFile_ok_inv c.fs fs1 newpath
      ("/." ++ od.docID ++ "_" ++ od.docRev) hsr
    refine ⟨by rw [hfc], by rw [hfc], ?_, ?_⟩
    · rw [hc2]
      exact lookupA_insertA_self newpath [] fs1
    · intro hne
      rw [hc2]
      show lookupA (pathClean ("/." ++ od.docID ++ "_" ++ od.docRev))
        (insertA newpath [] fs1) = _
      rw [lookupA_insertA_ne _ newpath [] fs1 (Ne.symm hne)]
      rw [hfs1, lookupA_insertA_self]
      exact hov.symm

/-- Witness for C5: replacing when the target content is already gone
(a concurrent writer moved it) fails with a conflict rather than a
not-found. -/
theorem create_file_replace_witness :
    filePath { cW with fs := [] } ndW = Except.ok "/a.txt"
    ∧ createFile { cW with fs := [] } ndW (some odW) = Except.error Err.conflict := by
  refine ⟨rfl, ?_⟩
  exact (create_file_replace { cW with fs := [] } ndW odW "/a.txt" rfl).1
    (by decide) (by decide) rfl rfl

/-- C8: a successful replace-mode `CreateFile` carries the old id,
revision and creation time into the new document, stamps the update
time freshly from the clock, and leaves every other field of the new
document as given by the caller. -/
theorem create_file_inherits (c : Ctx) (nd od : FileDoc) (fc : FileCreation) (c2 : Ctx)
    (h : createFile c nd (some od) = Except.ok (fc, c2)) :
    fc.newdoc.docID = od.docID ∧ fc.newdoc.docRev = od.docRev
    ∧ fc.newdoc.createdAt = od.createdAt ∧ fc.newdoc.updatedAt = c.now
    ∧ fc.newdoc.type = nd.type ∧ fc.newdoc.name = nd.name
    ∧ fc.newdoc.dirID = nd.dirID ∧ fc.newdoc.restorePath = nd.restorePath
    ∧ fc.newdoc.size = nd.size ∧ fc.newdoc.md5Sum = nd.md5Sum
    ∧ fc.newdoc.mime = nd.mime ∧ fc.newdoc.fclass = nd.fclass
    ∧ fc.newdoc.executable = nd.executable ∧ fc.newdoc.tags = nd.tags
    ∧ fc.newdoc.referencedBy = nd.referencedBy := by
  cases hp : filePath c nd with
  | error e =>
    unfold createFile at h
    rw [hp] at h
    simp at h
  | ok newpath =>
    obtain ⟨fs1, _, _, hfc, _⟩ := createFile_ok_inv c nd od newpath fc c2 hp h
    subst hfc
    exact ⟨rfl, rfl, rfl, rfl, rfl, rfl, rfl, rfl, rfl, rfl, rfl, rfl, rfl, rfl, rfl⟩

/-- Witness for C8 at a concrete replacement. -/
theorem create_file_inherits_witness :
    createFile cW ndW (some odW) = Except.ok (fcReplResW, cReplResW)
    ∧ fcReplResW.newdoc.updatedAt = cW.now := by
  refine ⟨rfl, ?_⟩
  exact (create_file_inherits cW ndW odW fcReplResW cReplResW rfl).2.2.2.1

/-- C9: `safeRenameFile` normalizes both paths and requires them
absolute, rejects an occupied destination with the already-exists
error, and otherwise delegates to the content store's rename of the
normalized paths. -/
theorem safe_rename_spec (fs : Fs) (oldpath newpath : String) :
    ((pathIsAbs (pathClean newpath) && pathIsAbs (pathClean oldpath)) = false →
      safeRenameFile fs oldpath newpath = Except.error Err.nonAbsolutePath)
    ∧ (∀ v, (pathIsAbs (pathClean newpath) && pathIsAbs (pathClean oldpath)) = true →
        fsLookup (pathClean newpath) fs = some v →
        safeRenameFile fs oldpath newpath = Except.error Err.alreadyExists)
    ∧ ((pathIsAbs (pathClean newpath) && pathIsAbs (pathClean oldpath)) = true →
        fsLookup (pathClean newpath) fs = none →
        safeRenameFile fs oldpath newpath
          = fsRenameE (pathClean oldpath) (pathClean newpath) fs) := by
  refine ⟨?_, ?_, ?_⟩
  · intro hab
    unfold safeRenameFile
    dsimp only
    cases hA : pathIsAbs (pathClean newpath) with
    | false => simp [hA]
    | true =>
      cases hB : pathIsAbs (pathClean oldpath) with
      | false => simp [hA, hB]
      | true => rw [hA, hB] at hab; simp at hab
  · intro v hab hv
    rw [Bool.and_eq_true] at hab
    unfold safeRenameFile
    dsimp only
    simp [hab.1, hab.2, hv]
  · intro hab hn
    rw [Bool.and_eq_true] at hab
    unfold safeRenameFile
    dsimp only
    simp [hab.1, hab.2, hn]

/-- Witness for C9: a free destination delegates to the store rename. -/
theorem safe_rename_spec_witness :
    ((pathIsAbs (pathClean "/y") && pathIsAbs (pathClean "/x")) = true)
    ∧ safeRenameFile [("/x", [1])] "/x" "/y"
        = fsRenameE (pathClean "/x") (pathClean "/y") [("/x", [1])] := by
  refine ⟨by decide, ?_⟩
  exact (safe_rename_spec [("/x", [1])] "/x" "/y").2.2 (by decide) rfl

/-- C10: the validating constructor accepts an empty parent id,
defaulting it to the reserved root-directory id. -/
theorem new_file_doc_empty_dirid (name : String) (size : Int) (md5Sum : Option (List Nat))
    (mime fclass : String) (cdate : Nat) (executable : Bool) (tags : List String)
    (hvalid : checkFileName name = none) :
    ∃ d, NewFileDoc name "" size md5Sum mime fclass cdate executable tags = Except.ok d
      ∧ d.dirID = RootDirID := by
  unfold NewFileDoc
  rw [hvalid]
  exact ⟨_, rfl, rfl⟩

/-- Witness for C10 at a concrete valid name. -/
theorem new_file_doc_empty_dirid_witness :
    checkFileName "report.txt" = none
    ∧ ∃ d, NewFileDoc "report.txt" "" 7 none "text/plain" "text" 1 false []
        = Except.ok d ∧ d.dirID = RootDirID := by
  refine ⟨by decide, ?_⟩
  exact new_file_doc_empty_dirid "report.txt" 7 none "text/plain" "text" 1 false [] (by decide)

/-- C7: `DestroyFile` removes the content at the resolved path before
deleting the metadata document: a path-resolution or removal error is
returned with the context (in particular the metadata store) unchanged,
and once removal succeeded the content entry is gone from the resulting
context even when the metadata delete itself fails. -/
theorem destroy_file_spec (c : Ctx) (doc : FileDoc) :
    (∀ e, filePath c doc = Except.error e → DestroyFile c doc = (some e, c))
    ∧ (∀ p, filePath c doc = Except.ok p → fsLookup p c.fs = none →
        DestroyFile c doc = (some Err.notFound, c))
    ∧ (∀ p v, filePath c doc = Except.ok p → fsLookup p c.fs = some v →
        (DestroyFile c doc).2.fs = eraseA p c.fs
        ∧ ((DestroyFile c doc).1 = none →
            (DestroyFile c doc).2.docs = eraseA doc.docID c.docs)
        ∧ (lookupA doc.docID c.docs = none →
            DestroyFile c doc = (some Err.notFound, { c with fs := eraseA p c.fs }))) := by
  refine ⟨?_, ?_, ?_⟩
  · intro e he
    unfold DestroyFile
    rw [he]
  · intro p hp hl
    unfold DestroyFile
    rw [hp]
    dsimp only
    unfold fsRemoveE
    rw [show lookupA p c.fs = none from hl]
  · intro p v hp hv
    unfold DestroyFile
    rw [hp]
    dsimp only
    unfold fsRemoveE
    rw [show lookupA p c.fs = some v from hv]
    dsimp only
    unfold couchDeleteDoc
    dsimp only
    cases hd : lookupA doc.docID c.docs with
    | none =>
      refine ⟨rfl, ?_, fun _ => rfl⟩
      intro hcon
      simp at hcon
    | some cur =>
      refine ⟨rfl, fun _ => rfl, ?_⟩
      intro hcon
      simp at hcon

/-- Witness for C7: destroying a document whose content is already
gone fails with not-found and leaves the metadata store untouched. -/
theorem destroy_file_spec_witness :
    filePath { cW with fs := [] } odW = Except.ok "/a.txt"
    ∧ DestroyFile { cW with fs := [] } odW = (some Err.notFound, { cW with fs := [] }) := by
  refine ⟨rfl, ?_⟩
  exact (destroy_file_spec { cW with fs := [] } odW).2.1 "/a.txt" rfl rfl

/-! ### The trash manager -/

theorem tryGo_ok {α : Type} (fmt : String → Nat → String)
    (op : String → Ctx → Except Err α × Ctx) (base : String) :
    ∀ fuel i c d c2, tryGo fmt op base fuel i c = (Except.ok d, c2) →
      ∃ name c0, (name = base ∨ ∃ j, name = fmt base j)
        ∧ op name c0 = (Except.ok d, c2) := by
  intro fuel
  induction fuel with
  | zero =>
    intro i c d c2 h
    simp [tryGo] at h
  | succ n ih =>
    intro i c d c2 h
    unfold tryGo at h
    dsimp only at h
    by_cases hr : isCollision (op (if i = 0 then base else fmt base i) c).1 = true
    · rw [if_pos hr] at h
      exact ih (i + 1) _ d c2 h
    · rw [if_neg hr] at h
      refine ⟨if i = 0 then base else fmt base i, c, ?_, ?_⟩
      · by_cases hi : i = 0
        · left; simp [hi]
        · right; exact ⟨i, by simp [hi]⟩
      · exact h

theorem modify_ok_fields (c : Ctx) (old : FileDoc) (p : DocPatch) (d : FileDoc) (c2 : Ctx)
    (n did rp : String)
    (hn : p.name = some n) (hd : p.dirID = some did) (hr : p.restorePath = some rp)
    (hdid : did ≠ "")
    (h : ModifyFileMetadata c old p = (Except.ok d, c2)) :
    d.name = n ∧ d.dirID = did ∧ d.restorePath = rp := by
  unfold ModifyFileMetadata at h
  simp only [normalizeDocPatch, hn, hd, hr, Option.getD_some] at h
  unfold NewFileDoc at h
  cases hcn : checkFileName n with
  | some e =>
    rw [hcn] at h
    simp at h
  | none =>
    rw [hcn] at h
    dsimp only at h
    rw [if_neg hdid] at h
    split at h
    · simp at h
    · split at h
      · simp at h
      · split at h
        · simp at h
        · split at h
          · simp at h
          · split at h
            · simp at h
            · split at h
              · simp at h
              · simp only [Prod.mk.injEq, Except.ok.injEq] at h
                rw [← h.1]
                exact ⟨rfl, rfl, rfl⟩

/-- C6: `TrashFile` fails with the in-trash error and changes nothing
when the file's resolved path already lies under the trash root (so a
second trash of an already-trashed node fails); otherwise any
successful result has its restore path equal to the parent of the
pre-trash path, its parent moved to the reserved trash directory id,
and its name chosen by the conflict namer: the original name or a
decorated-suffix variant of it. -/
theorem trash_file_spec (c : Ctx) (olddoc : FileDoc) (oldpath : String)
    (hpath : filePath c olddoc = Except.ok oldpath) :
    (strStartsWith oldpath TrashDirName = true →
      TrashFile c olddoc = (Except.error Err.fileInTrash, c))
    ∧ (strStartsWith oldpath TrashDirName = false →
       ∀ d c2, TrashFile c olddoc = (Except.ok d, c2) →
         d.restorePath = pathDir oldpath
         ∧ d.dirID = TrashDirID
         ∧ (d.name = olddoc.name ∨ ∃ i, d.name = conflictName olddoc.name i)) := by
  constructor
  · intro hin
    unfold TrashFile
    rw [hpath]
    dsimp only
    rw [if_pos hin]
  · intro hout d c2 h
    unfold TrashFile at h
    rw [hpath] at h
    dsimp only at h
    rw [if_neg (by simp [hout])] at h
    unfold tryOrUseSuffix at h
    obtain ⟨name, c0, hname, hop⟩ :=
      tryGo_ok conflictName _ olddoc.name maxTries 0 c d c2 h
    obtain ⟨h1, h2, h3⟩ := modify_ok_fields c0 olddoc _ d c2 name TrashDirID
      (pathDir oldpath) rfl rfl rfl (by decide) hop
    refine ⟨h3, h2, ?_⟩
    cases hname with
    | inl hbase => exact Or.inl (h1.trans hbase)
    | inr hdec =>
      obtain ⟨j, hj⟩ := hdec
      exact Or.inr ⟨j, h1.trans hj⟩

/-- Witness for C6: trashing the sample file succeeds with the
expected restore path, trash parent and original name. -/
theorem trash_file_spec_witness :
    filePath cW odW = Except.ok "/a.txt"
    ∧ (trashedW.restorePath = pathDir "/a.txt" ∧ trashedW.dirID = TrashDirID
       ∧ (trashedW.name = odW.name ∨ ∃ i, trashedW.name = conflictName odW.name i)) :=
  ⟨rfl, (trash_file_spec cW odW "/a.txt" rfl).2 (by decide) trashedW
    (TrashFile cW odW).2 rfl⟩

end Vfs
